import Mathlib

/-!
Shallow embedding of the KCDev RPG Maker MZ plugins (composite bitmap
layering, mirror reflections, number-list parsing, move-route transform
tweening) together with proofs about the embedded operations.

JavaScript objects used as string-keyed dictionaries are modelled as
association lists `List (String × α)` with JS property semantics
(lookup finds the unique binding, assignment replaces in place or
appends, `delete` removes).  The recursive procedures that can diverge
in JavaScript (`isNotCircularRef`, `recursivelyFlatten`) are modelled
with an explicit recursion-depth fuel parameter; `none` means the
JavaScript call would not have returned at that depth, and divergence
is the statement that every fuel amount yields `none`.
-/

namespace CompositeBitmaps

/-- A face layer record `{ filename, index }` as pushed by `addFaceLayer`. -/
structure LayerInfo where
  filename : String
  index : Int
deriving DecidableEq, Repr

/-- A JS object mapping composite filenames to their layer lists
(`$.faceLayers` and friends). -/
abbrev Dict := List (String × List LayerInfo)

/-- JS property read `obj[k]`: `some` of the unique binding, else `none`
(`undefined`). -/
def dictGet (d : Dict) (k : String) : Option (List LayerInfo) :=
  (d.find? (fun p => p.1 = k)).map (fun p => p.2)

/-- JS property write `obj[k] = v`: replaces the binding in place when
present, otherwise appends it (JS objects keep insertion order). -/
def dictSet (d : Dict) (k : String) (v : List LayerInfo) : Dict :=
  if (d.find? (fun p => p.1 = k)).isSome then
    d.map (fun p => if p.1 = k then (k, v) else p)
  else
    d ++ [(k, v)]

/-- JS `delete obj[k]`. -/
def dictDelete (d : Dict) (k : String) : Dict :=
  d.filter (fun p => ¬ p.1 = k)

/-- The loop body of `isNotCircularRef` over one `layerInfos` array.
The JS loop `for (i...; result) { result = result && filename !== layerFile
&& isNotCircularRef(filename, layerInfosDict[layerFile], ...) }`
short-circuits: a recursive call on `layerInfosDict[layerFile]` that is
`undefined` returns `true` immediately (no depth consumed there beyond
the call that bottoms out at once), and each recursive descent into a
defined entry consumes one unit of fuel. -/
def isNCGo (deep : List LayerInfo → Option Bool) (dict : Dict) (filename : String) :
    List LayerInfo → Option Bool
  | [] => some true
  | info :: rest =>
    if filename = info.filename then some false
    else
      match dictGet dict info.filename with
      | none => isNCGo deep dict filename rest
      | some inner =>
        match deep inner with
        | none => none
        | some false => some false
        | some true => isNCGo deep dict filename rest

/-- The loop of `isNotCircularRef`, one fuel unit per nested recursive
descent into a defined dictionary entry (a recursive call on an
`undefined` entry returns `true` at once and consumes no depth). -/
def isNotCircularRefList (dict : Dict) (filename : String) :
    Nat → List LayerInfo → Option Bool
  | 0 => isNCGo (fun _ => none) dict filename
  | fuel + 1 => isNCGo (isNotCircularRefList dict filename fuel) dict filename

/-- `isNotCircularRef(filename, layerInfos, layerInfosDict)`:
`if (!layerInfos) return true;` then the loop above.  `none` models a
JS call that has not returned within `fuel` nested recursive calls. -/
def isNotCircularRef (dict : Dict) (fuel : Nat) (filename : String)
    (layerInfos : Option (List LayerInfo)) : Option Bool :=
  match layerInfos with
  | none => some true
  | some l => isNotCircularRefList dict filename fuel l

/-- `HitsFrom dict f l`: starting from the layer list `l`, following
layer filenames through `dict`, some path reaches a layer whose
filename is `f`.  This is the graph-reachability property that the
traversal in `isNotCircularRef` explores. -/
inductive HitsFrom (dict : Dict) (f : String) : List LayerInfo → Prop
  | head (info : LayerInfo) (l : List LayerInfo) :
      info ∈ l → info.filename = f → HitsFrom dict f l
  | step (info : LayerInfo) (l inner : List LayerInfo) :
      info ∈ l → dictGet dict info.filename = some inner →
      HitsFrom dict f inner → HitsFrom dict f l

/-- One edge of the layer-reference graph: composite `a` lists a layer
named `b`. -/
def edgeRel (dict : Dict) (a b : String) : Prop :=
  ∃ l, dictGet dict a = some l ∧ b ∈ l.map LayerInfo.filename

/-- The layer-reference graph of `dict` has no cycle. -/
def Acyclic (dict : Dict) : Prop :=
  ∀ x, ¬ Relation.TransGen (edgeRel dict) x x

/-- The number of dictionary keys not yet on the current path: the
measure showing that `isNotCircularRef`'s recursion depth is bounded
on acyclic dictionaries. -/
def keysOutside (dict : Dict) (parents : List String) : Nat :=
  ((dict.map Prod.fst).filter (fun k => ¬ k ∈ parents)).length

/-- A `Composite_Bitmap` as far as the cache logic observes it: its
identity (`id`, distinguishing distinct JS objects) and `_images`, the
list of the direct layer filenames recorded by the constructor
(`layerInfos.forEach(info => this._images.push(info.filename))`). -/
structure Composite_Bitmap where
  id : Nat
  images : List String
deriving DecidableEq, Repr

/-- A `$.cache` value: `{ bitmap: compBmp, config: config }`. -/
structure CacheEntry where
  bitmap : Composite_Bitmap
  config : String
deriving DecidableEq, Repr

/-- The plugin cache `$.cache`, a JS `Map` from prefixed filenames to
cache entries, in insertion order. -/
abbrev Cache := List (String × CacheEntry)

/-- JS `Map.get`. -/
def cacheGet (c : Cache) (k : String) : Option CacheEntry :=
  (c.find? (fun p => p.1 = k)).map (fun p => p.2)

/-- JS `Map.delete` followed by `Map.set` (which appends a fresh key at
the end of the iteration order). -/
def cacheSet (c : Cache) (k : String) (v : CacheEntry) : Cache :=
  c.filter (fun p => ¬ p.1 = k) ++ [(k, v)]

/-- JS `Map.delete`. -/
def cacheDelete (c : Cache) (k : String) : Cache :=
  c.filter (fun p => ¬ p.1 = k)

/-- `JsonEx.stringify` of one face layer record. -/
def serializeLayerInfo (i : LayerInfo) : String :=
  "\x7b\"filename\":\"" ++ i.filename ++ "\",\"index\":" ++ toString i.index ++ "\x7d"

/-- `JsonEx.stringify(layerInfos)` for a face layer array. -/
def serializeLayerInfos (l : List LayerInfo) : String :=
  "[" ++ String.intercalate "," (l.map serializeLayerInfo) ++ "]"

/-- Mutable plugin state touched by the face-composite operations: the
`$.faceLayers` dictionary, the `$.cache` map, and a supply of fresh
bitmap identities standing for `new Composite_Face_Bitmap(...)`. -/
structure CBState where
  faceLayers : Dict
  cache : Cache
  nextId : Nat
deriving DecidableEq, Repr

/-- `$.setupComposite(filename, layerInfos, prefix, compositeLoadFunc)`:
look up `prefix + filename` in the cache; on a config hit return the
cached bitmap unchanged, on a config miss delete the stale entry; when
not returning from the cache, build a fresh composite bitmap (whose
`_images` are the direct layer filenames), store it with the config
under the prefixed key, and return it. -/
def setupComposite (filename : String) (layerInfos : List LayerInfo) (pre : String)
    (cache : Cache) (nextId : Nat) : Composite_Bitmap × Cache × Nat :=
  let config := serializeLayerInfos layerInfos
  let key := pre ++ filename
  match cacheGet cache key with
  | some cached =>
    if cached.config = config then
      (cached.bitmap, cache, nextId)
    else
      let cache' := cacheDelete cache key
      let compBmp : Composite_Bitmap := ⟨nextId, layerInfos.map LayerInfo.filename⟩
      (compBmp, cacheSet cache' key ⟨compBmp, config⟩, nextId + 1)
  | none =>
    let compBmp : Composite_Bitmap := ⟨nextId, layerInfos.map LayerInfo.filename⟩
    (compBmp, cacheSet cache key ⟨compBmp, config⟩, nextId + 1)

/-- JS `String.prototype.startsWith` on character lists. -/
def listStartsWith : List Char → List Char → Bool
  | _, [] => true
  | [], _ :: _ => false
  | c :: cs, p :: ps => c = p && listStartsWith cs ps

/-- JS `String.prototype.startsWith`. -/
def strStartsWith (s pre : String) : Bool :=
  listStartsWith s.toList pre.toList

/-- `$.invalidateCachedComposites(layerName, prefix)`: delete every
cache entry whose key starts with `prefix` and whose bitmap's
`_images` directly includes `layerName`. -/
def invalidateCachedComposites (layerName : String) (pre : String) (cache : Cache) : Cache :=
  cache.filter (fun p => ¬ (strStartsWith p.1 pre ∧ layerName ∈ p.2.bitmap.images))

/-- The prefix `$.FACE_PREFIX`. -/
def FACE_PRE : String := "fc"

/-- `$.faceLayers[destination] = $.faceLayers[destination] || [];` -/
def ensureEntry (d : Dict) (destination : String) : Dict :=
  match dictGet d destination with
  | some _ => d
  | none => dictSet d destination []

/-- `$.addFaceLayer(source, destination, sourceIndex)`: ensure the
destination entry exists, run `isNotCircularRef(destination,
$.faceLayers[destination], $.faceLayers)`; when it returns `true`,
push `{ filename: source, index: sourceIndex }` and invalidate the
cached `fc` composites that directly layer `destination`; when it
returns `false`, only log.  `none` models a check that diverges. -/
def addFaceLayer (fuel : Nat) (source destination : String) (sourceIndex : Int)
    (st : CBState) : Option CBState :=
  let d0 := ensureEntry st.faceLayers destination
  let cur := (dictGet d0 destination).getD []
  match isNotCircularRef d0 fuel destination (dictGet d0 destination) with
  | none => none
  | some true =>
    some ⟨dictSet d0 destination (cur ++ [⟨source, sourceIndex⟩]),
      invalidateCachedComposites destination FACE_PRE st.cache, st.nextId⟩
  | some false => some ⟨d0, st.cache, st.nextId⟩

/-- `$.removeFaceLayers(faceName)`: delete the dictionary entry and
invalidate the cached `fc` composites that directly layer it. -/
def removeFaceLayers (faceName : String) (st : CBState) : CBState :=
  ⟨dictDelete st.faceLayers faceName,
    invalidateCachedComposites faceName FACE_PRE st.cache, st.nextId⟩

/-- The patched `ImageManager.loadFace`: composite names go through
`setupComposite` with the `fc` prefix and the face loader; other names
fall through to the engine loader (modelled as a fresh non-composite
bitmap that never enters `$.cache`). -/
def loadFace (filename : String) (st : CBState) : Composite_Bitmap × CBState :=
  match dictGet st.faceLayers filename with
  | some layerInfos =>
    let r := setupComposite filename layerInfos FACE_PRE st.cache st.nextId
    (r.1, ⟨st.faceLayers, r.2.1, r.2.2⟩)
  | none => (⟨st.nextId, []⟩, ⟨st.faceLayers, st.cache, st.nextId + 1⟩)

/-- `recursivelyFlatten(layerInfos, compList, parentNames)` with an
explicit recursion-depth fuel: a layer whose filename is in
`parentNames` is skipped, a layer naming another composite is replaced
by its recursive flattening (with the filename added to a copy of the
parent set), and any other layer is kept as-is.  Contributions keep
the traversal order. -/
def recFlatGo (deep : List LayerInfo → List String → Option (List LayerInfo))
    (compList : Dict) : List LayerInfo → List String → Option (List LayerInfo)
  | [], _ => some []
  | info :: rest, parentNames =>
    if info.filename ∈ parentNames then
      recFlatGo deep compList rest parentNames
    else
      match dictGet compList info.filename with
      | none => (recFlatGo deep compList rest parentNames).map (info :: ·)
      | some listEntry =>
        match deep listEntry (info.filename :: parentNames) with
        | none => none
        | some sub => (recFlatGo deep compList rest parentNames).map (sub ++ ·)

/-- `recursivelyFlatten`, one fuel unit per recursive descent into a
dictionary entry. -/
def recursivelyFlatten (compList : Dict) :
    Nat → List LayerInfo → List String → Option (List LayerInfo)
  | 0 => recFlatGo (fun _ _ => none) compList
  | fuel + 1 => recFlatGo (recursivelyFlatten compList fuel) compList

/-- `$.flattenLayerInfos(filename, compList)`: flatten the layer list
of `filename`, seeding the parent set with `filename` itself; an
unknown filename flattens to `[]`. -/
def flattenLayerInfos (filename : String) (compList : Dict) (fuel : Nat) :
    Option (List LayerInfo) :=
  match dictGet compList filename with
  | some layerInfos => recursivelyFlatten compList fuel layerInfos [filename]
  | none => some []

/-- A top-view character layer record
`{ filename, sIndex, dIndex, _isBig }` as pushed by `addTvLayer`. -/
structure TvLayerInfo where
  filename : String
  sIndex : Int
  dIndex : Int
  isBig : Bool
deriving DecidableEq, Repr

/-- A side-view or picture layer record `{ filename }`. -/
structure NameLayerInfo where
  filename : String
deriving DecidableEq, Repr

/-- The four layer dictionaries plus the cache: the plugin state that
the save-file patches read and write. -/
structure CBSaveState where
  faceLayers : Dict
  tvCharLayers : List (String × List TvLayerInfo)
  svCharLayers : List (String × List NameLayerInfo)
  picLayers : List (String × List NameLayerInfo)
  cache : Cache
deriving DecidableEq, Repr

/-- The object stored at `contents.KCDev.CompositeBitmaps` by the
patched `DataManager.makeSaveContents`.  Fields are optional because
`extractSaveContents` guards each with `|| {}` when reading foreign
save data. -/
structure CompositeSaveData where
  faceLayers : Option Dict
  tvCharLayers : Option (List (String × List TvLayerInfo))
  svCharLayers : Option (List (String × List NameLayerInfo))
  picLayers : Option (List (String × List NameLayerInfo))
deriving DecidableEq, Repr

/-- A save-contents object: whatever the engine's own
`makeSaveContents` produced (opaque here), plus the optional
`KCDev.CompositeBitmaps` slot. -/
structure SaveContents (α : Type) where
  base : α
  kcdevCompositeBitmaps : Option CompositeSaveData

/-- The patched `DataManager.makeSaveContents`: call the engine
function, store the four layer dictionaries under
`contents.KCDev.CompositeBitmaps`, clear `$.cache`, and return the
contents. -/
def makeSaveContents {α : Type} (base : α) (st : CBSaveState) :
    SaveContents α × CBSaveState :=
  (⟨base, some ⟨some st.faceLayers, some st.tvCharLayers, some st.svCharLayers,
      some st.picLayers⟩⟩,
    { st with cache := [] })

/-- The patched `DataManager.extractSaveContents`: call the engine
function, then, when `contents.KCDev?.CompositeBitmaps` is present,
replace the four dictionaries from it (each defaulting to `{}`), and
clear `$.cache` in every case. -/
def extractSaveContents {α : Type} (contents : SaveContents α) (st : CBSaveState) :
    CBSaveState :=
  match contents.kcdevCompositeBitmaps with
  | some saved =>
    { faceLayers := saved.faceLayers.getD []
      tvCharLayers := saved.tvCharLayers.getD []
      svCharLayers := saved.svCharLayers.getD []
      picLayers := saved.picLayers.getD []
      cache := [] }
  | none => { st with cache := [] }

end CompositeBitmaps

namespace Mirrors

/-- The column loop of `KCDev.Mirrors.buildCurrentMapCache` for column
`i`: `for (let j = height - 1; j >= 0; j--)` pushes `j` onto the
column array whenever the tile's region id is a wall region, so the
array holds the matching rows in decreasing order. -/
def buildColumnLoop (region : Nat → Nat → Int) (wallRegions : List Int) (i : Nat) :
    Nat → List Nat
  | 0 => []
  | j + 1 =>
    (if region i j ∈ wallRegions then [j] else []) ++ buildColumnLoop region wallRegions i j

/-- The outer loop of `buildCurrentMapCache`: a map entry appears for
column `i` exactly when that column pushed at least one row. -/
def buildCacheLoop (region : Nat → Nat → Int) (wallRegions : List Int) (height : Nat) :
    Nat → List (Nat × List Nat)
  | 0 => []
  | i + 1 =>
    (let col := buildColumnLoop region wallRegions i height
     if col = [] then [] else [(i, col)]) ++ buildCacheLoop region wallRegions height i

/-- `KCDev.Mirrors.buildCurrentMapCache()` over a `width × height` map
whose region ids are given by `region`. -/
def buildCurrentMapCache (width height : Nat) (region : Nat → Nat → Int)
    (wallRegions : List Int) : List (Nat × List Nat) :=
  buildCacheLoop region wallRegions height width

/-- JS `Map.get` for the wall-position cache. -/
def posGet (m : List (Nat × List Nat)) (k : Nat) : Option (List Nat) :=
  (m.find? (fun p => p.1 = k)).map (fun p => p.2)

/-- `KCDev.Mirrors.getWallY(x, y)`: look up column `x` in the cached
wall positions, keep the rows `≤ y`, and return the first of them
(the cache being freshly built for the current map), or `-1`. -/
def getWallY (width height : Nat) (region : Nat → Nat → Int) (wallRegions : List Int)
    (x y : Nat) : Int :=
  match posGet (buildCurrentMapCache width height region wallRegions) x with
  | some col =>
    match col.filter (fun yCoord => yCoord ≤ y) with
    | [] => -1
    | j :: _ => (j : Int)
  | none => -1

/-- The pseudo-perspective branch of
`Sprite_Character.prototype.updateReflectWall`: from the character
sprite's scale `(sx, sy)`, the distance to the wall `distToWall`, and
`KCDev.Mirrors.maxWallDistance`, compute the reflection sprite's
`(scale.x, scale.y)`:
`let scale = 1 - (distToWall - 1) / maxWallDistance;` clamped to
`[0, 1]`, then `r.scale.x = -this.scale.x * scale;
r.scale.y = this.scale.y * scale;`. -/
def updateReflectWallScale (sx sy distToWall maxWallDistance : ℚ) : ℚ × ℚ :=
  let scale0 := 1 - (distToWall - 1) / maxWallDistance
  let scale := if scale0 > 1 then 1 else if scale0 < 0 then 0 else scale0
  (-sx * scale, sy * scale)

end Mirrors

namespace CondFaces

/-- The whitespace class of the regex `/\s+/` restricted to the usual
ASCII whitespace characters. -/
def isWs (c : Char) : Bool :=
  c = ' ' ∨ c = '\t' ∨ c = '\n' ∨ c = '\r'

/-- `numList.replaceAll(/\s+/g, ' ')`: collapse every maximal
whitespace run into a single space.  The boolean argument records
whether the previous character was part of a whitespace run. -/
def collapseWs : Bool → List Char → List Char
  | _, [] => []
  | prevWs, c :: rest =>
    if isWs c then
      if prevWs then collapseWs true rest else ' ' :: collapseWs true rest
    else c :: collapseWs false rest

/-- JS `String.prototype.split(sep)` for a one-character separator:
always yields at least one (possibly empty) piece, and empty pieces
around consecutive or outer separators are kept. -/
def splitChar (sep : Char) : List Char → List (List Char)
  | [] => [[]]
  | c :: rest =>
    if c = sep then [] :: splitChar sep rest
    else
      match splitChar sep rest with
      | [] => [[c]]
      | t :: ts => (c :: t) :: ts

/-- The value of a maximal leading decimal-digit run, or `none` when
there is no leading digit (`parseInt` returns `NaN` then). -/
def digitsVal (cs : List Char) : Option Nat :=
  match cs.takeWhile Char.isDigit with
  | [] => none
  | ds => some (ds.foldl (fun a c => a * 10 + (c.toNat - '0'.toNat)) 0)

/-- JS `parseInt(str)` on the decimal strings this plugin feeds it:
skip leading whitespace, read an optional sign and then a maximal
digit run (ignoring any trailing garbage), `none` for `NaN`. -/
def parseIntJS (cs : List Char) : Option Int :=
  match cs.dropWhile (fun c => isWs c) with
  | '-' :: rest => (digitsVal rest).map (fun n => -(n : Int))
  | '+' :: rest => (digitsVal rest).map (fun n => (n : Int))
  | other => (digitsVal other).map (fun n => (n : Int))

/-- The ascending run of integers visited by
`for (let i = num1; i <= num2; i++)`. -/
def intRange (num1 num2 : Int) : List Int :=
  (List.range (num2 + 1 - num1).toNat).map (fun (k : Nat) => num1 + (k : Int))

/-- The body of the `forEach` in `getSetFromNumList`, adding one
token's numbers to the accumulated set.  `if (num)` keeps a parse
result only when it is a number other than `0` (both `NaN` and `0`
are falsy); a token with exactly one `-` separator whose two pieces
both parse to such numbers contributes the inclusive range between
them, swapping the endpoints when given in decreasing order. -/
def addToken (acc : Finset Int) (numStr : List Char) : Finset Int :=
  match splitChar '-' numStr with
  | [single] =>
    match parseIntJS single with
    | some num => if num ≠ 0 then insert num acc else acc
    | none => acc
  | [fst, snd] =>
    match parseIntJS fst, parseIntJS snd with
    | some num1, some num2 =>
      if num1 ≠ 0 ∧ num2 ≠ 0 then
        let lo := if num1 > num2 then num2 else num1
        let hi := if num1 > num2 then num1 else num2
        (intRange lo hi).foldl (fun s i => insert i s) acc
      else acc
    | _, _ => acc
  | _ => acc

/-- `getSetFromNumList(numList)`: collapse whitespace, split on single
spaces, and fold every token into the set. -/
def getSetFromNumList (numList : String) : Finset Int :=
  (splitChar ' ' (collapseWs false numList.toList)).foldl addToken ∅

/-- Spec-side description of one token's contribution, following the
amended claim wording: a hyphen-free token contributes its parsed
value when that value is a number other than zero; a token with one
hyphen contributes the inclusive range between its two parsed values
(endpoints in either order) when both are numbers other than zero;
every other token contributes nothing. -/
def specTokenSet (t : List Char) : Finset Int :=
  match splitChar '-' t with
  | [single] =>
    match parseIntJS single with
    | some n => if n ≠ 0 then {n} else ∅
    | none => ∅
  | [fst, snd] =>
    match parseIntJS fst, parseIntJS snd with
    | some n1, some n2 =>
      if n1 ≠ 0 ∧ n2 ≠ 0 then Finset.Icc (min n1 n2) (max n1 n2) else ∅
    | _, _ => ∅
  | _ => ∅

/-- Spec-side description of the whole parse: the union of every
token's contribution. -/
def specNumListSet (numList : String) : Finset Int :=
  ((splitChar ' ' (collapseWs false numList.toList)).map specTokenSet).foldr (· ∪ ·) ∅

end CondFaces

namespace MoveRouteTF

/-- One `_moveRouteTransforms` entry:
`{ start, current, target, duration, time }`. -/
structure Transform where
  start : ℚ
  current : ℚ
  target : ℚ
  duration : ℚ
  time : ℚ
deriving DecidableEq, Repr

/-- `$.easeFunc(transform)`:
`start + (target - start) * (time / duration)`. -/
def easeFunc (tf : Transform) : ℚ :=
  tf.start + (tf.target - tf.start) * (tf.time / tf.duration)

/-- `needsUpdate(moveInfo)`: `time < duration`. -/
def needsUpdate (moveInfo : Transform) : Prop :=
  moveInfo.time < moveInfo.duration

instance (moveInfo : Transform) : Decidable (needsUpdate moveInfo) :=
  inferInstanceAs (Decidable (moveInfo.time < moveInfo.duration))

/-- The per-transform body of `updateTransformEx`, run once per
`Game_CharacterBase.update` tick: when an update is needed, increment
`time` and recompute `current` with `easeFunc`. -/
def updateTransformEx (tf : Transform) : Transform :=
  if needsUpdate tf then
    let tf' := { tf with time := tf.time + 1 }
    { tf' with current := easeFunc tf' }
  else tf

/-- `setTarget(transform, start, target, duration)`: overwrite
`target`, `duration`, `start` and reset `time` to `0` (`current` is
left untouched). -/
def setTarget (tf : Transform) (start target duration : ℚ) : Transform :=
  { tf with target := target, duration := duration, start := start, time := 0 }

/-- The state of a transform after `n` engine update ticks. -/
def tick (n : Nat) (tf : Transform) : Transform :=
  updateTransformEx^[n] tf

end MoveRouteTF

/-! ## Helper lemmas -/

namespace CompositeBitmaps

lemma cacheGet_cacheSet_self (c : Cache) (k : String) (v : CacheEntry) :
    cacheGet (cacheSet c k v) k = some v := by
  unfold cacheGet cacheSet
  rw [List.find?_append]
  have h : (c.filter (fun p => ¬ p.1 = k)).find? (fun p => p.1 = k) = none := by
    rw [List.find?_eq_none]
    intro x hx
    rcases List.mem_filter.mp hx with ⟨-, hpx⟩
    simpa using hpx
  simp [h]

lemma setupComposite_cacheGet (filename pre : String) (l : List LayerInfo)
    (cache : Cache) (nextId : Nat) :
    cacheGet (setupComposite filename l pre cache nextId).2.1 (pre ++ filename) =
      some ⟨(setupComposite filename l pre cache nextId).1, serializeLayerInfos l⟩ := by
  unfold setupComposite
  cases h : cacheGet cache (pre ++ filename) with
  | none => simp [h, cacheGet_cacheSet_self]
  | some cached =>
    obtain ⟨bm, cfg⟩ := cached
    by_cases hc : cfg = serializeLayerInfos l
    · simp [h, hc]
    · simp [h, hc, cacheGet_cacheSet_self]

end CompositeBitmaps

/-! ## Claim theorems -/

namespace CompositeBitmaps

/-- C10: the patched `makeSaveContents` stores the four layer
dictionaries and clears the cache; applying the patched
`extractSaveContents` to the produced contents restores exactly those
dictionaries (over any intervening state) and leaves the cache empty. -/
theorem makeSave_extractSave_roundtrip {α : Type} (base : α) (st other : CBSaveState) :
    extractSaveContents (makeSaveContents base st).1 other =
      ⟨st.faceLayers, st.tvCharLayers, st.svCharLayers, st.picLayers, []⟩ ∧
    (makeSaveContents base st).2 = { st with cache := [] } :=
  ⟨rfl, rfl⟩

/-- C4: when the serialized layer configuration is unchanged,
a second `setupComposite` call returns the very bitmap cached by the
first call and leaves the cache state untouched; when the key is
cached under a different serialization, the stale entry is deleted and
a freshly built bitmap is stored under the prefixed key and returned. -/
theorem setupComposite_cache_correct (filename pre : String) (l1 l2 : List LayerInfo)
    (cache : Cache) (nextId : Nat) :
    (serializeLayerInfos l2 = serializeLayerInfos l1 →
      setupComposite filename l2 pre
          (setupComposite filename l1 pre cache nextId).2.1
          (setupComposite filename l1 pre cache nextId).2.2 =
        ((setupComposite filename l1 pre cache nextId).1,
         (setupComposite filename l1 pre cache nextId).2.1,
         (setupComposite filename l1 pre cache nextId).2.2)) ∧
    (∀ cached, cacheGet cache (pre ++ filename) = some cached →
      ¬ cached.config = serializeLayerInfos l2 →
      setupComposite filename l2 pre cache nextId =
        (⟨nextId, l2.map LayerInfo.filename⟩,
         cacheSet (cacheDelete cache (pre ++ filename)) (pre ++ filename)
           ⟨⟨nextId, l2.map LayerInfo.filename⟩, serializeLayerInfos l2⟩,
         nextId + 1)) := by
  constructor
  · intro h21
    have hget := setupComposite_cacheGet filename pre l1 cache nextId
    conv_lhs => rw [setupComposite]
    rw [hget]
    simp [h21]
  · intro cached hget hcfg
    rw [setupComposite, hget]
    simp [hcfg]

/-- C4 witness: a cache hit with unchanged serialization returns the
cached bitmap unchanged, and a stale entry is replaced by a fresh
bitmap; instantiated at concrete inputs. -/
theorem setupComposite_cache_correct_witness :
    (serializeLayerInfos [⟨"A", 0⟩] = serializeLayerInfos [⟨"A", 0⟩] ∧
      setupComposite "B" [⟨"A", 0⟩] "fc"
          (setupComposite "B" [⟨"A", 0⟩] "fc" [] 0).2.1
          (setupComposite "B" [⟨"A", 0⟩] "fc" [] 0).2.2 =
        ((setupComposite "B" [⟨"A", 0⟩] "fc" [] 0).1,
         (setupComposite "B" [⟨"A", 0⟩] "fc" [] 0).2.1,
         (setupComposite "B" [⟨"A", 0⟩] "fc" [] 0).2.2)) ∧
    (cacheGet [("fcB", ⟨⟨9, ["Z"]⟩, "stale"⟩)] ("fc" ++ "B") = some ⟨⟨9, ["Z"]⟩, "stale"⟩ ∧
      ¬ ("stale" : String) = serializeLayerInfos [⟨"A", 0⟩] ∧
      setupComposite "B" [⟨"A", 0⟩] "fc" [("fcB", ⟨⟨9, ["Z"]⟩, "stale"⟩)] 3 =
        (⟨3, ["A"]⟩,
         cacheSet (cacheDelete [("fcB", ⟨⟨9, ["Z"]⟩, "stale"⟩)] ("fc" ++ "B")) ("fc" ++ "B")
           ⟨⟨3, ["A"]⟩, serializeLayerInfos [⟨"A", 0⟩]⟩,
         3 + 1)) := by
  refine ⟨⟨rfl, (setupComposite_cache_correct "B" "fc" [⟨"A", 0⟩] [⟨"A", 0⟩] [] 0).1 rfl⟩,
    ⟨by decide, by decide, ?_⟩⟩
  have h := (setupComposite_cache_correct "B" "fc" [⟨"A", 0⟩] [⟨"A", 0⟩]
    [("fcB", ⟨⟨9, ["Z"]⟩, "stale"⟩)] 3).2 ⟨⟨9, ["Z"]⟩, "stale"⟩ (by decide) (by decide)
  simpa using h

/-- C1 counterexample: starting from empty dictionaries,
`addFaceLayer("A","B",0)` followed by `addFaceLayer("B","A",0)` are
both accepted (both push their layer and neither is rejected), and the
resulting dictionary's reference graph contains a cycle: starting from
the layer list of `"B"` the graph reaches `"B"` again. -/
theorem addFaceLayer_cycle_counterexample :
    (addFaceLayer 10 "A" "B" 0 ⟨[], [], 0⟩).bind (addFaceLayer 10 "B" "A" 0) =
      some ⟨[("B", [⟨"A", 0⟩]), ("A", [⟨"B", 0⟩])], [], 0⟩ ∧
    HitsFrom [("B", [⟨"A", 0⟩]), ("A", [⟨"B", 0⟩])] "B" [⟨"A", 0⟩] := by
  constructor
  · decide
  · exact .step ⟨"A", 0⟩ _ [⟨"B", 0⟩] (by simp) (by decide)
      (.head ⟨"B", 0⟩ _ (by simp) rfl)

end CompositeBitmaps

namespace MoveRouteTF

lemma setTarget_eq (tf : Transform) (start target duration : ℚ) :
    setTarget tf start target duration = ⟨start, tf.current, target, duration, 0⟩ := rfl

lemma tick_succ (n : Nat) (tf : Transform) :
    tick (n + 1) tf = updateTransformEx (tick n tf) :=
  Function.iterate_succ_apply' updateTransformEx n tf

lemma tick_formula (tf : Transform) (start target : ℚ) (d : ℕ) (hd : 1 ≤ d) :
    ∀ t : ℕ, 1 ≤ t → t ≤ d →
      tick t (setTarget tf start target (d : ℚ)) =
        ⟨start, start + (target - start) * ((t : ℚ) / (d : ℚ)), target, (d : ℚ), (t : ℚ)⟩ := by
  have hd0 : (0 : ℚ) < (d : ℚ) := by exact_mod_cast Nat.lt_of_lt_of_le Nat.zero_lt_one hd
  intro t
  induction t with
  | zero => omega
  | succ k IH =>
    intro _ hle
    rcases Nat.eq_zero_or_pos k with hk0 | hkpos
    · subst hk0
      rw [tick_succ]
      show updateTransformEx (tick 0 (setTarget tf start target (d : ℚ))) = _
      rw [tick, Function.iterate_zero_apply, setTarget_eq]
      rw [updateTransformEx]
      rw [if_pos (show needsUpdate ⟨start, tf.current, target, (d : ℚ), 0⟩ from hd0)]
      simp [easeFunc]
    · have hk : tick k (setTarget tf start target (d : ℚ)) =
          ⟨start, start + (target - start) * ((k : ℚ) / (d : ℚ)), target, (d : ℚ), (k : ℚ)⟩ :=
        IH hkpos (Nat.le_of_succ_le hle)
      rw [tick_succ, hk, updateTransformEx]
      have hlt : ((k : ℚ)) < (d : ℚ) := by exact_mod_cast Nat.lt_of_succ_le hle
      rw [if_pos (show needsUpdate ⟨start, _, target, (d : ℚ), (k : ℚ)⟩ from hlt)]
      simp [easeFunc]

lemma tick_fixed (s : Transform) (h : ¬ needsUpdate s) : ∀ t : ℕ, tick t s = s := by
  intro t
  induction t with
  | zero => rfl
  | succ k IH => rw [tick_succ, IH, updateTransformEx, if_neg h]

/-- C8 (amended): after `setTarget(transform, start, target, d)` with
`d ≥ 1`, the value after `t` ticks for `1 ≤ t ≤ d` is
`start + (target - start) * (t / d)`, after exactly `d` ticks it is
`target`, and every tick after the `d`-th leaves the transform (its
`start`, `current` and `target` fields included) unchanged; after `0`
ticks `current` still holds its pre-call value, because `setTarget`
does not write `current`. -/
theorem moveRouteTransform_tween (tf : Transform) (start target : ℚ) (d : ℕ) (hd : 1 ≤ d) :
    (tick 0 (setTarget tf start target (d : ℚ))).current = tf.current ∧
    (∀ t : ℕ, 1 ≤ t → t ≤ d →
      (tick t (setTarget tf start target (d : ℚ))).current =
        start + (target - start) * ((t : ℚ) / (d : ℚ))) ∧
    (tick d (setTarget tf start target (d : ℚ))).current = target ∧
    (∀ t : ℕ, d ≤ t →
      tick t (setTarget tf start target (d : ℚ)) =
        tick d (setTarget tf start target (d : ℚ))) := by
  have hd0 : ((d : ℚ)) ≠ 0 := Nat.cast_ne_zero.mpr (by omega)
  refine ⟨rfl, ?_, ?_, ?_⟩
  · intro t h1 h2
    rw [tick_formula tf start target d hd t h1 h2]
  · rw [tick_formula tf start target d hd d hd le_rfl]
    show start + (target - start) * ((d : ℚ) / (d : ℚ)) = target
    rw [div_self hd0]
    ring
  · intro t ht
    have hfix : ¬ needsUpdate (tick d (setTarget tf start target (d : ℚ))) := by
      rw [tick_formula tf start target d hd d hd le_rfl]
      show ¬ ((d : ℚ) < (d : ℚ))
      exact lt_irrefl _
    obtain ⟨m, rfl⟩ : ∃ m, t = d + m := ⟨t - d, by omega⟩
    calc tick (d + m) (setTarget tf start target (d : ℚ))
        = tick m (tick d (setTarget tf start target (d : ℚ))) := by
          rw [tick, tick, tick, Nat.add_comm d m, Function.iterate_add_apply]
      _ = tick d (setTarget tf start target (d : ℚ)) := tick_fixed _ hfix m

/-- C8 witness: the tween theorem applied at a concrete transform
with duration `4`, evaluated after two ticks. -/
theorem moveRouteTransform_tween_witness :
    (1 ≤ 4) ∧
    (tick 2 (setTarget ⟨0, 5, 0, 1, 0⟩ 0 10 ((4 : ℕ) : ℚ))).current =
      0 + (10 - 0) * (((2 : ℕ) : ℚ) / ((4 : ℕ) : ℚ)) :=
  ⟨by norm_num,
    (moveRouteTransform_tween ⟨0, 5, 0, 1, 0⟩ 0 10 4 (by norm_num)).2.1 2
      (by norm_num) (by norm_num)⟩

/-- C8 counterexample: immediately after
`setTarget(transform, 0, 10, 4)` (zero ticks), the transform's
`current` field still holds its previous value `5`, not the claimed
`start + (target - start) * (0 / 4) = 0`. -/
theorem setTarget_current_counterexample :
    (tick 0 (setTarget ⟨0, 5, 0, 1, 0⟩ 0 10 4)).current ≠ 0 + (10 - 0) * ((0 : ℚ) / 4) := by
  show (5 : ℚ) ≠ 0 + (10 - 0) * ((0 : ℚ) / 4)
  norm_num

end MoveRouteTF

namespace Mirrors

lemma clamp_eq (x : ℚ) :
    (if x > 1 then (1 : ℚ) else if x < 0 then 0 else x) = max 0 (min 1 x) := by
  split_ifs with h1 h2
  · rw [min_eq_left h1.le, max_eq_right zero_le_one]
  · rw [min_eq_right (by linarith), max_eq_left (by linarith)]
  · rw [min_eq_right (by linarith), max_eq_right (by linarith)]

/-- C6: in pseudo-perspective wall-reflection mode (with a positive
`maxWallDistance`), the reflection sprite's scale is the character
sprite's scale times the factor `1 - (d - 1) / maxWallDistance`
clamped into `[0, 1]`, with the x component negated; hence the
reflection is never larger than the character sprite, and its scale is
`(0, 0)` whenever `d ≥ maxWallDistance + 1`. -/
theorem updateReflectWall_scale_correct (sx sy distToWall M : ℚ) (hM : 0 < M) :
    updateReflectWallScale sx sy distToWall M =
      (-sx * max 0 (min 1 (1 - (distToWall - 1) / M)),
        sy * max 0 (min 1 (1 - (distToWall - 1) / M))) ∧
    |(updateReflectWallScale sx sy distToWall M).1| ≤ |sx| ∧
    |(updateReflectWallScale sx sy distToWall M).2| ≤ |sy| ∧
    (M + 1 ≤ distToWall → updateReflectWallScale sx sy distToWall M = (0, 0)) := by
  have heq : updateReflectWallScale sx sy distToWall M =
      (-sx * max 0 (min 1 (1 - (distToWall - 1) / M)),
        sy * max 0 (min 1 (1 - (distToWall - 1) / M))) := by
    rw [updateReflectWallScale, clamp_eq]
  have hf0 : 0 ≤ max 0 (min 1 (1 - (distToWall - 1) / M)) := le_max_left _ _
  have hf1 : max 0 (min 1 (1 - (distToWall - 1) / M)) ≤ 1 :=
    max_le zero_le_one (min_le_left _ _)
  refine ⟨heq, ?_, ?_, ?_⟩
  · rw [heq]
    calc |(-sx * max 0 (min 1 (1 - (distToWall - 1) / M)), _).1|
        = |sx| * max 0 (min 1 (1 - (distToWall - 1) / M)) := by
          rw [abs_mul, abs_neg, abs_of_nonneg hf0]
      _ ≤ |sx| * 1 := mul_le_mul_of_nonneg_left hf1 (abs_nonneg sx)
      _ = |sx| := mul_one _
  · rw [heq]
    calc |(_, sy * max 0 (min 1 (1 - (distToWall - 1) / M))).2|
        = |sy| * max 0 (min 1 (1 - (distToWall - 1) / M)) := by
          rw [abs_mul, abs_of_nonneg hf0]
      _ ≤ |sy| * 1 := mul_le_mul_of_nonneg_left hf1 (abs_nonneg sy)
      _ = |sy| := mul_one _
  · intro hd
    have hone : (1 : ℚ) ≤ (distToWall - 1) / M := (one_le_div hM).mpr (by linarith)
    have hz : max 0 (min 1 (1 - (distToWall - 1) / M)) = 0 :=
      max_eq_left ((min_le_right _ _).trans (by linarith))
    rw [heq, hz]
    simp

/-- C6 witness: the scale theorem at a concrete positive
`maxWallDistance = 20` with the character `30` tiles from the wall
(beyond the maximum, so the reflection scale is zero). -/
theorem updateReflectWall_scale_correct_witness :
    (0 : ℚ) < 20 ∧
    (updateReflectWallScale 1 1 30 20 =
      (-1 * max 0 (min 1 (1 - ((30 : ℚ) - 1) / 20)),
        1 * max 0 (min 1 (1 - ((30 : ℚ) - 1) / 20))) ∧
    |(updateReflectWallScale 1 1 30 20).1| ≤ |(1 : ℚ)| ∧
    |(updateReflectWallScale 1 1 30 20).2| ≤ |(1 : ℚ)| ∧
    ((20 : ℚ) + 1 ≤ 30 → updateReflectWallScale 1 1 30 20 = (0, 0))) :=
  ⟨by norm_num, updateReflectWall_scale_correct 1 1 30 20 (by norm_num)⟩

end Mirrors

namespace CondFaces

/-- C7 counterexample: the token `"0"` is a single number, and the
token `"0-2"` is a numeric range containing `0`, yet both parse to the
empty set because `parseInt`'s result is guarded with the truthiness
test `if (num)`, which rejects `0`. -/
theorem getSetFromNumList_zero_counterexample :
    getSetFromNumList "0" = ∅ ∧ getSetFromNumList "0-2" = ∅ := by
  constructor <;> decide

end CondFaces

namespace CompositeBitmaps

/-- C2 counterexample: on the dictionary `{"C": [{filename: "C"}]}`
(a self-referencing entry, a state reachable through accepted adds),
the query `isNotCircularRef("B", [{filename: "C"}], dict)` recurses
through `"C"` forever: no recursion depth suffices, which in
JavaScript is a stack overflow rather than a return. -/
theorem isNotCircularRef_divergence :
    ¬ ∃ fuel b,
      isNotCircularRef [("C", [⟨"C", 0⟩])] fuel "B" (some [⟨"C", 0⟩]) = some b := by
  have key : ∀ fuel, isNotCircularRefList [("C", [⟨"C", 0⟩])] "B" fuel [⟨"C", 0⟩] = none := by
    intro fuel
    induction fuel with
    | zero => rfl
    | succ k IH =>
      have hstep : isNotCircularRefList [("C", [⟨"C", 0⟩])] "B" (k + 1) [⟨"C", 0⟩] =
          (match isNotCircularRefList [("C", [⟨"C", 0⟩])] "B" k [⟨"C", 0⟩] with
            | none => none
            | some false => some false
            | some true =>
              isNCGo (isNotCircularRefList [("C", [⟨"C", 0⟩])] "B" k)
                [("C", [⟨"C", 0⟩])] "B" []) := rfl
      rw [hstep, IH]
  rintro ⟨fuel, b, h⟩
  rw [isNotCircularRef, key fuel] at h
  exact Option.noConfusion h

/-- C3 counterexample: build `B = [A]`, `C = [B]`, load both composites
into the cache, then run the layer-add `addFaceLayer("X", "A", 0)`
targeting `A`.  The cached `fc`-prefixed composite for `B` is removed,
but the cached composite for `C` — whose layer graph reaches `A`
through the intermediate composite `B` — survives in the cache, so `C`
is not recomposed on its next load. -/
theorem invalidate_transitive_counterexample :
    ((((addFaceLayer 10 "A" "B" 0 ⟨[], [], 0⟩).bind
          (addFaceLayer 10 "B" "C" 0)).map (fun s => (loadFace "B" s).2)).map
            (fun s => (loadFace "C" s).2)).bind (addFaceLayer 10 "X" "A" 0) =
      some ⟨[("B", [⟨"A", 0⟩]), ("C", [⟨"B", 0⟩]), ("A", [⟨"X", 0⟩])],
        [("fcC", ⟨⟨1, ["B"]⟩, serializeLayerInfos [⟨"B", 0⟩]⟩)], 2⟩ ∧
    cacheGet [("fcC", ⟨⟨1, ["B"]⟩, serializeLayerInfos [⟨"B", 0⟩]⟩)] ("fc" ++ "C") =
      some ⟨⟨1, ["B"]⟩, serializeLayerInfos [⟨"B", 0⟩]⟩ ∧
    dictGet [("B", [⟨"A", 0⟩]), ("C", [⟨"B", 0⟩]), ("A", [⟨"X", 0⟩])] "C" =
      some [⟨"B", 0⟩] ∧
    HitsFrom [("B", [⟨"A", 0⟩]), ("C", [⟨"B", 0⟩]), ("A", [⟨"X", 0⟩])] "A" [⟨"B", 0⟩] := by
  refine ⟨by decide, by decide, by decide, ?_⟩
  exact .step ⟨"B", 0⟩ _ [⟨"A", 0⟩] (by simp) (by decide) (.head ⟨"A", 0⟩ _ (by simp) rfl)

end CompositeBitmaps

namespace CompositeBitmaps

lemma not_hitsFrom_nil (dict : Dict) (f : String) : ¬ HitsFrom dict f [] := by
  intro h
  cases h with
  | head info _ hmem _ => cases hmem
  | step info _ _ hmem _ _ => cases hmem

lemma hitsFrom_mono {dict : Dict} {f : String} {l l' : List LayerInfo}
    (h : HitsFrom dict f l) (hsub : ∀ x ∈ l, x ∈ l') : HitsFrom dict f l' := by
  cases h with
  | head info _ hmem hf => exact .head info l' (hsub info hmem) hf
  | step info _ inner hmem hdict hinner => exact .step info l' inner (hsub info hmem) hdict hinner

lemma isNCGo_cons_self {deep : List LayerInfo → Option Bool} {dict : Dict}
    {filename : String} {info : LayerInfo} {rest : List LayerInfo}
    (hf : filename = info.filename) :
    isNCGo deep dict filename (info :: rest) = some false := by
  rw [isNCGo, if_pos hf]

lemma isNCGo_cons_lookup_none {deep : List LayerInfo → Option Bool} {dict : Dict}
    {filename : String} {info : LayerInfo} {rest : List LayerInfo}
    (hf : ¬ filename = info.filename) (hd : dictGet dict info.filename = none) :
    isNCGo deep dict filename (info :: rest) = isNCGo deep dict filename rest := by
  rw [isNCGo, if_neg hf, hd]

lemma isNCGo_cons_lookup_some {deep : List LayerInfo → Option Bool} {dict : Dict}
    {filename : String} {info : LayerInfo} {rest inner : List LayerInfo}
    (hf : ¬ filename = info.filename) (hd : dictGet dict info.filename = some inner) :
    isNCGo deep dict filename (info :: rest) =
      match deep inner with
      | none => none
      | some false => some false
      | some true => isNCGo deep dict filename rest := by
  rw [isNCGo, if_neg hf, hd]

lemma isNCGo_false_hits {dict : Dict} {f : String} {deep : List LayerInfo → Option Bool}
    (hdeep : ∀ inner, deep inner = some false → HitsFrom dict f inner) :
    ∀ l, isNCGo deep dict f l = some false → HitsFrom dict f l := by
  intro l
  induction l with
  | nil => intro h; exact absurd h (by simp [isNCGo])
  | cons info rest IH =>
    intro h
    by_cases hf : f = info.filename
    · exact .head info _ (List.mem_cons_self _ _) hf.symm
    · cases hd : dictGet dict info.filename with
      | none =>
        rw [isNCGo_cons_lookup_none hf hd] at h
        exact hitsFrom_mono (IH h) (fun x hx => List.mem_cons_of_mem _ hx)
      | some inner =>
        rw [isNCGo_cons_lookup_some hf hd] at h
        cases hv : deep inner with
        | none => rw [hv] at h; cases h
        | some b =>
          rw [hv] at h
          cases b with
          | false =>
            exact .step info _ inner (List.mem_cons_self _ _) hd (hdeep inner hv)
          | true =>
            exact hitsFrom_mono (IH h) (fun x hx => List.mem_cons_of_mem _ hx)

lemma isNCGo_true_not_hits {dict : Dict} {f : String} {deep : List LayerInfo → Option Bool}
    (hdeep : ∀ inner, deep inner = some true → ¬ HitsFrom dict f inner) :
    ∀ l, isNCGo deep dict f l = some true → ¬ HitsFrom dict f l := by
  intro l
  induction l with
  | nil => intro _; exact not_hitsFrom_nil dict f
  | cons info rest IH =>
    intro h hh
    by_cases hf : f = info.filename
    · rw [isNCGo_cons_self hf] at h; cases h
    · cases hd : dictGet dict info.filename with
      | none =>
        rw [isNCGo_cons_lookup_none hf hd] at h
        cases hh with
        | head info0 _ hmem hfn =>
          rcases List.mem_cons.mp hmem with rfl | hmem'
          · exact hf hfn.symm
          · exact IH h (.head info0 rest hmem' hfn)
        | step info0 _ inner hmem hdict hinner =>
          rcases List.mem_cons.mp hmem with rfl | hmem'
          · rw [hd] at hdict; cases hdict
          · exact IH h (.step info0 rest inner hmem' hdict hinner)
      | some inner =>
        rw [isNCGo_cons_lookup_some hf hd] at h
        cases hv : deep inner with
        | none => rw [hv] at h; cases h
        | some b =>
          rw [hv] at h
          cases b with
          | false => cases h
          | true =>
            cases hh with
            | head info0 _ hmem hfn =>
              rcases List.mem_cons.mp hmem with rfl | hmem'
              · exact hf hfn.symm
              · exact IH h (.head info0 rest hmem' hfn)
            | step info0 _ inner0 hmem hdict hinner =>
              rcases List.mem_cons.mp hmem with rfl | hmem'
              · rw [hd] at hdict
                injection hdict with hinj
                exact hdeep inner hv (hinj ▸ hinner)
              · exact IH h (.step info0 rest inner0 hmem' hdict hinner)

lemma isNCL_false_hits (dict : Dict) (f : String) :
    ∀ fuel l, isNotCircularRefList dict f fuel l = some false → HitsFrom dict f l := by
  intro fuel
  induction fuel with
  | zero => exact isNCGo_false_hits (fun inner h => by cases h)
  | succ k IH => exact isNCGo_false_hits IH

lemma isNCL_true_not_hits (dict : Dict) (f : String) :
    ∀ fuel l, isNotCircularRefList dict f fuel l = some true → ¬ HitsFrom dict f l := by
  intro fuel
  induction fuel with
  | zero => exact isNCGo_true_not_hits (fun inner h => by cases h)
  | succ k IH => exact isNCGo_true_not_hits IH

lemma dictGet_dictSet_self (d : Dict) (k : String) (v : List LayerInfo) :
    dictGet (dictSet d k v) k = some v := by
  unfold dictGet dictSet
  by_cases h : (d.find? (fun p => p.1 = k)).isSome
  · rw [if_pos h]
    induction d with
    | nil => simp at h
    | cons a d IH =>
      by_cases ha : a.1 = k
      · simp [List.find?_cons_of_pos, ha]
      · rw [List.map_cons, if_neg ha, List.find?_cons_of_neg _ (by simpa using ha)]
        rw [List.find?_cons_of_neg _ (by simpa using ha)] at h
        exact IH h
  · rw [if_neg h]
    rw [List.find?_append]
    have hnone : d.find? (fun p => p.1 = k) = none := by
      cases hf : d.find? (fun p => p.1 = k) with
      | none => rfl
      | some pair => rw [hf] at h; simp at h
    simp [hnone]

lemma dictGet_ensureEntry (d : Dict) (k : String) :
    dictGet (ensureEntry d k) k = some ((dictGet d k).getD []) := by
  unfold ensureEntry
  cases h : dictGet d k with
  | some v => simp [h]
  | none => simp [dictGet_dictSet_self]

lemma addFaceLayer_spec (fuel : Nat) (source destination : String) (sourceIndex : Int)
    (st st' : CBState) (h : addFaceLayer fuel source destination sourceIndex st = some st') :
    (HitsFrom (ensureEntry st.faceLayers destination) destination
        ((dictGet (ensureEntry st.faceLayers destination) destination).getD []) ∧
      st' = ⟨ensureEntry st.faceLayers destination, st.cache, st.nextId⟩) ∨
    (¬ HitsFrom (ensureEntry st.faceLayers destination) destination
        ((dictGet (ensureEntry st.faceLayers destination) destination).getD []) ∧
      st' = ⟨dictSet (ensureEntry st.faceLayers destination) destination
          (((dictGet (ensureEntry st.faceLayers destination) destination).getD []) ++
            [⟨source, sourceIndex⟩]),
        invalidateCachedComposites destination FACE_PRE st.cache, st.nextId⟩) := by
  rw [addFaceLayer, dictGet_ensureEntry st.faceLayers destination, isNotCircularRef] at h
  rw [dictGet_ensureEntry st.faceLayers destination]
  cases hv : isNotCircularRefList (ensureEntry st.faceLayers destination) destination fuel
      ((dictGet st.faceLayers destination).getD []) with
  | none => rw [hv] at h; cases h
  | some b =>
    rw [hv] at h
    cases b with
    | true =>
      refine Or.inr ⟨isNCL_true_not_hits _ _ fuel _ hv, ?_⟩
      injection h with h'
      exact h'.symm
    | false =>
      refine Or.inl ⟨isNCL_false_hits _ _ fuel _ hv, ?_⟩
      injection h with h'
      exact h'.symm

/-- C1 (amended): a layer add is rejected exactly when the destination
composite is already reachable from its own current layer list through
the existing dictionary (a pre-existing cycle through the
destination); a rejected add changes nothing beyond ensuring a
(possibly empty) entry for the destination, while an accepted add
pushes the new layer unconditionally.  The new layer itself is never
examined by the check, so an addition that closes a cycle is accepted
and the dictionary can become cyclic. -/
theorem addFaceLayer_circular_check (fuel : Nat) (source destination : String)
    (sourceIndex : Int) (st st' : CBState)
    (h : addFaceLayer fuel source destination sourceIndex st = some st') :
    (HitsFrom (ensureEntry st.faceLayers destination) destination
        ((dictGet (ensureEntry st.faceLayers destination) destination).getD []) →
      st' = ⟨ensureEntry st.faceLayers destination, st.cache, st.nextId⟩) ∧
    (¬ HitsFrom (ensureEntry st.faceLayers destination) destination
        ((dictGet (ensureEntry st.faceLayers destination) destination).getD []) →
      st' = ⟨dictSet (ensureEntry st.faceLayers destination) destination
          (((dictGet (ensureEntry st.faceLayers destination) destination).getD []) ++
            [⟨source, sourceIndex⟩]),
        invalidateCachedComposites destination FACE_PRE st.cache, st.nextId⟩) := by
  rcases addFaceLayer_spec fuel source destination sourceIndex st st' h with
    ⟨hh, heq⟩ | ⟨hh, heq⟩
  · exact ⟨fun _ => heq, fun hn => absurd hh hn⟩
  · exact ⟨fun hy => absurd hy hh, fun _ => heq⟩

/-- C1 witness: the characterization applied to the very first add on
an empty dictionary, which is accepted. -/
theorem addFaceLayer_circular_check_witness :
    addFaceLayer 1 "A" "B" 0 ⟨[], [], 0⟩ = some ⟨[("B", [⟨"A", 0⟩])], [], 0⟩ ∧
    ((HitsFrom (ensureEntry ([] : Dict) "B") "B"
        ((dictGet (ensureEntry ([] : Dict) "B") "B").getD []) →
      (⟨[("B", [⟨"A", 0⟩])], [], 0⟩ : CBState) = ⟨ensureEntry ([] : Dict) "B", [], 0⟩) ∧
    (¬ HitsFrom (ensureEntry ([] : Dict) "B") "B"
        ((dictGet (ensureEntry ([] : Dict) "B") "B").getD []) →
      (⟨[("B", [⟨"A", 0⟩])], [], 0⟩ : CBState) =
        ⟨dictSet (ensureEntry ([] : Dict) "B") "B"
          (((dictGet (ensureEntry ([] : Dict) "B") "B").getD []) ++ [⟨"A", 0⟩]),
        invalidateCachedComposites "B" FACE_PRE [], 0⟩)) :=
  ⟨by decide, addFaceLayer_circular_check 1 "A" "B" 0 ⟨[], [], 0⟩
    ⟨[("B", [⟨"A", 0⟩])], [], 0⟩ (by decide)⟩

end CompositeBitmaps

namespace CompositeBitmaps

lemma filter_length_mono {α : Type} (L : List α) (p q : α → Bool)
    (h : ∀ x, p x = true → q x = true) :
    (L.filter p).length ≤ (L.filter q).length := by
  induction L with
  | nil => simp
  | cons a L IH =>
    cases hp : p a with
    | true =>
      rw [List.filter_cons_of_pos hp, List.filter_cons_of_pos (h a hp)]
      exact Nat.succ_le_succ IH
    | false =>
      rw [List.filter_cons_of_neg (by simp [hp])]
      cases hq : q a with
      | true => rw [List.filter_cons_of_pos hq]; exact IH.trans (Nat.le_succ _)
      | false => rw [List.filter_cons_of_neg (by simp [hq])]; exact IH

lemma filter_outside_cons_lt (L : List String) (parents : List String) (g : String)
    (hg : g ∈ L) (hgp : ¬ g ∈ parents) :
    (L.filter (fun k => ¬ k ∈ (g :: parents))).length <
      (L.filter (fun k => ¬ k ∈ parents)).length := by
  induction L with
  | nil => cases hg
  | cons a L IH =>
    have hmono : ∀ x : String,
        (fun k => decide ¬ k ∈ (g :: parents)) x = true →
        (fun k => decide ¬ k ∈ parents) x = true := by
      intro x hx
      simp only [decide_eq_true_eq] at hx ⊢
      intro hxp
      exact hx (List.mem_cons_of_mem _ hxp)
    by_cases hag : a = g
    · subst hag
      rw [List.filter_cons_of_neg (by simp), List.filter_cons_of_pos (by simpa using hgp)]
      exact Nat.lt_succ_of_le (filter_length_mono L _ _ hmono)
    · rcases List.mem_cons.mp hg with h' | hgL
      · exact absurd h'.symm hag
      · by_cases hap : a ∈ parents
        · rw [List.filter_cons_of_neg (by simp [hap]),
            List.filter_cons_of_neg (by simp [hap])]
          exact IH hgL
        · rw [List.filter_cons_of_pos (by simp [hap, hag]),
            List.filter_cons_of_pos (by simpa using hap)]
          exact Nat.succ_lt_succ (IH hgL)

lemma keysOutside_cons_lt (dict : Dict) (parents : List String) (g : String)
    (hg : g ∈ dict.map Prod.fst) (hgp : ¬ g ∈ parents) :
    keysOutside dict (g :: parents) < keysOutside dict parents :=
  filter_outside_cons_lt (dict.map Prod.fst) parents g hg hgp

lemma keysOutside_pos (dict : Dict) (parents : List String) (g : String)
    (hg : g ∈ dict.map Prod.fst) (hgp : ¬ g ∈ parents) :
    0 < keysOutside dict parents := by
  have : g ∈ (dict.map Prod.fst).filter (fun k => ¬ k ∈ parents) :=
    List.mem_filter.mpr ⟨hg, by simpa using hgp⟩
  exact List.length_pos.mpr (List.ne_nil_of_mem this)

lemma dictGet_some_mem_keys {d : Dict} {k : String} {v : List LayerInfo}
    (h : dictGet d k = some v) : k ∈ d.map Prod.fst := by
  unfold dictGet at h
  rcases Option.map_eq_some'.mp h with ⟨pair, hfind, -⟩
  have hp1 : pair.1 = k := by simpa using List.find?_some hfind
  exact hp1 ▸ List.mem_map_of_mem Prod.fst (List.mem_of_find?_eq_some hfind)

lemma isNCGo_isSome {dict : Dict} {f : String} {deep : List LayerInfo → Option Bool}
    (l : List LayerInfo)
    (hdeep : ∀ info ∈ l, ∀ inner, dictGet dict info.filename = some inner →
      (deep inner).isSome = true) :
    (isNCGo deep dict f l).isSome = true := by
  induction l with
  | nil => simp [isNCGo]
  | cons info rest IH =>
    by_cases hf : f = info.filename
    · rw [isNCGo_cons_self hf]; rfl
    · cases hd : dictGet dict info.filename with
      | none =>
        rw [isNCGo_cons_lookup_none hf hd]
        exact IH (fun i hi inner h => hdeep i (List.mem_cons_of_mem _ hi) inner h)
      | some inner =>
        rw [isNCGo_cons_lookup_some hf hd]
        have hsome := hdeep info (List.mem_cons_self _ _) inner hd
        cases hv : deep inner with
        | none => rw [hv] at hsome; cases hsome
        | some b =>
          cases b with
          | false => rfl
          | true =>
            exact IH (fun i hi inner' h => hdeep i (List.mem_cons_of_mem _ hi) inner' h)

lemma isNCL_total_of_acyclic (dict : Dict) (hac : Acyclic dict) (f : String) :
    ∀ (n : Nat) (p : List String) (l : List LayerInfo),
      (∀ x ∈ p, ∀ i ∈ l, Relation.TransGen (edgeRel dict) x i.filename) →
      keysOutside dict p ≤ n →
      (isNotCircularRefList dict f n l).isSome = true := by
  intro n
  induction n using Nat.strong_induction_on with
  | _ n IH =>
    intro p l hinv hm
    have hnotp : ∀ (info : LayerInfo) (inner : List LayerInfo), info ∈ l →
        dictGet dict info.filename = some inner → ¬ info.filename ∈ p := by
      intro info inner hi hd hp
      exact hac info.filename (hinv info.filename hp info hi)
    cases n with
    | zero =>
      rw [show isNotCircularRefList dict f 0 = isNCGo (fun _ => none) dict f from rfl]
      apply isNCGo_isSome
      intro info hi inner hd
      have hpos := keysOutside_pos dict p info.filename (dictGet_some_mem_keys hd)
        (hnotp info inner hi hd)
      omega
    | succ m =>
      rw [show isNotCircularRefList dict f (m + 1) =
        isNCGo (isNotCircularRefList dict f m) dict f from rfl]
      apply isNCGo_isSome
      intro info hi inner hd
      refine IH m (Nat.lt_succ_self m) (info.filename :: p) inner ?_ ?_
      · intro x hx i hi'
        have hedge : edgeRel dict info.filename i.filename :=
          ⟨inner, hd, List.mem_map_of_mem LayerInfo.filename hi'⟩
        rcases List.mem_cons.mp hx with rfl | hxp
        · exact Relation.TransGen.single hedge
        · exact Relation.TransGen.tail (hinv x hxp info hi) hedge
      · have := keysOutside_cons_lt dict p info.filename (dictGet_some_mem_keys hd)
          (hnotp info inner hi hd)
        omega

lemma acyclic_nil : Acyclic ([] : Dict) := by
  intro x h
  cases h with
  | single h => rcases h with ⟨l, hl, -⟩; simp [dictGet] at hl
  | tail _ h => rcases h with ⟨l, hl, -⟩; simp [dictGet] at hl

/-- C2 (amended): `isNotCircularRef` returns (`true` or `false`) for
every filename and layer-info list over any dictionary whose
layer-reference graph is acyclic; on a dictionary containing a
reference cycle that avoids the queried filename the recursion need
not terminate (see the divergence counterexample). -/
theorem isNotCircularRef_terminates_of_acyclic (dict : Dict) (f : String)
    (layerInfos : Option (List LayerInfo)) (hac : Acyclic dict) :
    ∃ fuel b, isNotCircularRef dict fuel f layerInfos = some b := by
  cases layerInfos with
  | none => exact ⟨0, true, rfl⟩
  | some l =>
    have h := isNCL_total_of_acyclic dict hac f (keysOutside dict []) [] l
      (by intro x hx; cases hx) le_rfl
    rcases Option.isSome_iff_exists.mp h with ⟨b, hb⟩
    exact ⟨keysOutside dict [], b, hb⟩

/-- C2 witness: termination on a concrete acyclic (empty) dictionary. -/
theorem isNotCircularRef_terminates_of_acyclic_witness :
    Acyclic ([] : Dict) ∧
    ∃ fuel b, isNotCircularRef [] fuel "A" (some [⟨"B", 0⟩]) = some b :=
  ⟨acyclic_nil, isNotCircularRef_terminates_of_acyclic [] "A" (some [⟨"B", 0⟩]) acyclic_nil⟩

lemma cacheGet_invalidate {c : Cache} {ln pre k : String} {e : CacheEntry}
    (h : cacheGet (invalidateCachedComposites ln pre c) k = some e)
    (hpre : strStartsWith k pre = true) : ¬ ln ∈ e.bitmap.images := by
  unfold cacheGet invalidateCachedComposites at h
  rcases Option.map_eq_some'.mp h with ⟨pair, hfind, hsnd⟩
  have hp1 : pair.1 = k := by simpa using List.find?_some hfind
  rcases List.mem_filter.mp (List.mem_of_find?_eq_some hfind) with ⟨-, hpred⟩
  simp only [decide_eq_true_eq] at hpred
  intro hln
  exact hpred ⟨hp1 ▸ hpre, hsnd ▸ hln⟩

/-- C3 (amended): after an accepted face layer-add targeting a
composite `destination`, and after any `removeFaceLayers`, no cache
entry under the `fc` prefix whose bitmap's layer list contains the
targeted name directly remains in the cache; composites that depend
on the targeted name only through intermediate composites are not
invalidated (see the counterexample). -/
theorem invalidateCachedComposites_direct (fuel : Nat)
    (source destination faceName : String) (sourceIndex : Int) (st st2 st' : CBState)
    (hadd : addFaceLayer fuel source destination sourceIndex st = some st')
    (hacc : ¬ HitsFrom (ensureEntry st.faceLayers destination) destination
        ((dictGet (ensureEntry st.faceLayers destination) destination).getD [])) :
    (∀ k e, cacheGet st'.cache k = some e → strStartsWith k FACE_PRE = true →
      ¬ destination ∈ e.bitmap.images) ∧
    (∀ k e, cacheGet (removeFaceLayers faceName st2).cache k = some e →
      strStartsWith k FACE_PRE = true → ¬ faceName ∈ e.bitmap.images) := by
  constructor
  · rcases addFaceLayer_spec fuel source destination sourceIndex st st' hadd with
      ⟨hh, -⟩ | ⟨-, heq⟩
    · exact absurd hh hacc
    · intro k e hk hpre
      rw [heq] at hk
      exact cacheGet_invalidate hk hpre
  · intro k e hk hpre
    exact cacheGet_invalidate hk hpre

/-- C3 witness: an accepted add targeting `"B"` drops the one cached
`fc` composite that directly layers `"B"`. -/
theorem invalidateCachedComposites_direct_witness :
    addFaceLayer 1 "A" "B" 0 ⟨[], [("fcZ", ⟨⟨9, ["B"]⟩, "c"⟩)], 5⟩ =
      some ⟨[("B", [⟨"A", 0⟩])], [], 5⟩ ∧
    ¬ HitsFrom (ensureEntry ([] : Dict) "B") "B"
        ((dictGet (ensureEntry ([] : Dict) "B") "B").getD []) ∧
    ((∀ k e, cacheGet ([] : Cache) k = some e → strStartsWith k FACE_PRE = true →
        ¬ "B" ∈ e.bitmap.images) ∧
      (∀ k e, cacheGet (removeFaceLayers "W" ⟨[], [("fcW", ⟨⟨3, ["W"]⟩, "c"⟩)], 0⟩).cache k =
          some e → strStartsWith k FACE_PRE = true → ¬ "W" ∈ e.bitmap.images)) := by
  have hacc : ¬ HitsFrom (ensureEntry ([] : Dict) "B") "B"
      ((dictGet (ensureEntry ([] : Dict) "B") "B").getD []) := by
    rw [show ((dictGet (ensureEntry ([] : Dict) "B") "B").getD []) = [] from rfl]
    exact not_hitsFrom_nil _ _
  exact ⟨by decide, hacc,
    invalidateCachedComposites_direct 1 "A" "B" "W" 0 ⟨[], [("fcZ", ⟨⟨9, ["B"]⟩, "c"⟩)], 5⟩
      ⟨[], [("fcW", ⟨⟨3, ["W"]⟩, "c"⟩)], 0⟩ ⟨[("B", [⟨"A", 0⟩])], [], 5⟩ (by decide) hacc⟩

end CompositeBitmaps

namespace CompositeBitmaps

lemma recFlatGo_cons_parent
    {deep : List LayerInfo → List String → Option (List LayerInfo)} {compList : Dict}
    {info : LayerInfo} {rest : List LayerInfo} {parentNames : List String}
    (h : info.filename ∈ parentNames) :
    recFlatGo deep compList (info :: rest) parentNames =
      recFlatGo deep compList rest parentNames := by
  rw [recFlatGo, if_pos h]

lemma recFlatGo_cons_lookup_none
    {deep : List LayerInfo → List String → Option (List LayerInfo)} {compList : Dict}
    {info : LayerInfo} {rest : List LayerInfo} {parentNames : List String}
    (h : ¬ info.filename ∈ parentNames) (hd : dictGet compList info.filename = none) :
    recFlatGo deep compList (info :: rest) parentNames =
      (recFlatGo deep compList rest parentNames).map (info :: ·) := by
  rw [recFlatGo, if_neg h, hd]

lemma recFlatGo_cons_lookup_some
    {deep : List LayerInfo → List String → Option (List LayerInfo)} {compList : Dict}
    {info : LayerInfo} {rest listEntry : List LayerInfo} {parentNames : List String}
    (h : ¬ info.filename ∈ parentNames)
    (hd : dictGet compList info.filename = some listEntry) :
    recFlatGo deep compList (info :: rest) parentNames =
      match deep listEntry (info.filename :: parentNames) with
      | none => none
      | some sub => (recFlatGo deep compList rest parentNames).map (sub ++ ·) := by
  rw [recFlatGo, if_neg h, hd]

lemma recFlatGo_entries {compList : Dict}
    {deep : List LayerInfo → List String → Option (List LayerInfo)}
    (hdeep : ∀ l' p' r', deep l' p' = some r' → ∀ e ∈ r', dictGet compList e.filename = none) :
    ∀ (l : List LayerInfo) (parentNames : List String) (r : List LayerInfo),
      recFlatGo deep compList l parentNames = some r →
      ∀ e ∈ r, dictGet compList e.filename = none := by
  intro l
  induction l with
  | nil =>
    intro parentNames r h e he
    rw [show recFlatGo deep compList [] parentNames = some [] from rfl] at h
    injection h with h'
    rw [← h'] at he
    cases he
  | cons info rest IH =>
    intro parentNames r h e he
    by_cases hp : info.filename ∈ parentNames
    · rw [recFlatGo_cons_parent hp] at h
      exact IH parentNames r h e he
    · cases hd : dictGet compList info.filename with
      | none =>
        rw [recFlatGo_cons_lookup_none hp hd] at h
        rcases Option.map_eq_some'.mp h with ⟨r', hr', rfl⟩
        rcases List.mem_cons.mp he with rfl | he'
        · exact hd
        · exact IH parentNames r' hr' e he'
      | some listEntry =>
        rw [recFlatGo_cons_lookup_some hp hd] at h
        cases hv : deep listEntry (info.filename :: parentNames) with
        | none => rw [hv] at h; cases h
        | some sub =>
          rw [hv] at h
          rcases Option.map_eq_some'.mp h with ⟨r', hr', rfl⟩
          rcases List.mem_append.mp he with hsub | he'
          · exact hdeep _ _ sub hv e hsub
          · exact IH parentNames r' hr' e he'

lemma recFlat_entries (compList : Dict) :
    ∀ (fuel : Nat) (l : List LayerInfo) (parentNames : List String) (r : List LayerInfo),
      recursivelyFlatten compList fuel l parentNames = some r →
      ∀ e ∈ r, dictGet compList e.filename = none := by
  intro fuel
  induction fuel with
  | zero => exact recFlatGo_entries (fun l' p' r' h => by cases h)
  | succ k IH => exact recFlatGo_entries (fun l' p' r' h => IH l' p' r' h)

lemma recFlatGo_isSome {compList : Dict}
    {deep : List LayerInfo → List String → Option (List LayerInfo)}
    (l : List LayerInfo) (parentNames : List String)
    (hdeep : ∀ info ∈ l, ∀ entry, ¬ info.filename ∈ parentNames →
      dictGet compList info.filename = some entry →
      (deep entry (info.filename :: parentNames)).isSome = true) :
    (recFlatGo deep compList l parentNames).isSome = true := by
  induction l with
  | nil => simp [recFlatGo]
  | cons info rest IH =>
    by_cases hp : info.filename ∈ parentNames
    · rw [recFlatGo_cons_parent hp]
      exact IH (fun i hi entry h hd => hdeep i (List.mem_cons_of_mem _ hi) entry h hd)
    · cases hd : dictGet compList info.filename with
      | none =>
        rw [recFlatGo_cons_lookup_none hp hd]
        have hrest := IH (fun i hi entry h hdd => hdeep i (List.mem_cons_of_mem _ hi) entry h hdd)
        rcases Option.isSome_iff_exists.mp hrest with ⟨r, hr⟩
        simp [hr]
      | some listEntry =>
        rw [recFlatGo_cons_lookup_some hp hd]
        have hsome := hdeep info (List.mem_cons_self _ _) listEntry hp hd
        cases hv : deep listEntry (info.filename :: parentNames) with
        | none => rw [hv] at hsome; cases hsome
        | some sub =>
          have hrest := IH (fun i hi entry h hdd =>
            hdeep i (List.mem_cons_of_mem _ hi) entry h hdd)
          rcases Option.isSome_iff_exists.mp hrest with ⟨r, hr⟩
          simp [hr]

lemma recFlat_total (compList : Dict) :
    ∀ (n : Nat) (parentNames : List String) (l : List LayerInfo),
      keysOutside compList parentNames ≤ n →
      (recursivelyFlatten compList n l parentNames).isSome = true := by
  intro n
  induction n using Nat.strong_induction_on with
  | _ n IH =>
    intro parentNames l hm
    cases n with
    | zero =>
      rw [show recursivelyFlatten compList 0 = recFlatGo (fun _ _ => none) compList from rfl]
      apply recFlatGo_isSome
      intro info hi entry hnp hd
      have hpos := keysOutside_pos compList parentNames info.filename
        (dictGet_some_mem_keys hd) hnp
      omega
    | succ m =>
      rw [show recursivelyFlatten compList (m + 1) =
        recFlatGo (recursivelyFlatten compList m) compList from rfl]
      apply recFlatGo_isSome
      intro info hi entry hnp hd
      refine IH m (Nat.lt_succ_self m) (info.filename :: parentNames) entry ?_
      have := keysOutside_cons_lt compList parentNames info.filename
        (dictGet_some_mem_keys hd) hnp
      omega

/-- C9: `flattenLayerInfos` terminates on every finite layer
dictionary, cyclic ones included (the `parentNames` set cuts every
cycle), and every layer record in the flattened result has a filename
that is not a key of the dictionary — the output refers only to
non-composite source images. -/
theorem flattenLayerInfos_terminates (compList : Dict) (filename : String) :
    ∃ fuel r, flattenLayerInfos filename compList fuel = some r ∧
      ∀ e ∈ r, dictGet compList e.filename = none := by
  cases h : dictGet compList filename with
  | none =>
    refine ⟨0, [], ?_, by intro e he; cases he⟩
    rw [flattenLayerInfos, h]
  | some layerInfos =>
    have htot := recFlat_total compList (keysOutside compList [filename]) [filename]
      layerInfos le_rfl
    rcases Option.isSome_iff_exists.mp htot with ⟨r, hr⟩
    refine ⟨keysOutside compList [filename], r, ?_, ?_⟩
    · rw [flattenLayerInfos, h]
      exact hr
    · exact recFlat_entries compList _ _ _ r hr

end CompositeBitmaps

namespace Mirrors

lemma mem_buildColumnLoop (region : Nat → Nat → Int) (walls : List Int) (i : Nat) :
    ∀ (h : Nat) (j : Nat),
      j ∈ buildColumnLoop region walls i h ↔ (j < h ∧ region i j ∈ walls) := by
  intro h
  induction h with
  | zero => intro j; simp [buildColumnLoop]
  | succ h IH =>
    intro j
    rw [buildColumnLoop, List.mem_append]
    by_cases hw : region i h ∈ walls
    · rw [if_pos hw]
      constructor
      · rintro (hj | hj)
        · rcases List.mem_singleton.mp hj with rfl
          exact ⟨Nat.lt_succ_self _, hw⟩
        · rcases (IH j).mp hj with ⟨h1, h2⟩
          exact ⟨Nat.lt_succ_of_lt h1, h2⟩
      · rintro ⟨hj, hwj⟩
        rcases Nat.lt_succ_iff_lt_or_eq.mp hj with h' | rfl
        · exact Or.inr ((IH j).mpr ⟨h', hwj⟩)
        · exact Or.inl (List.mem_singleton.mpr rfl)
    · rw [if_neg hw]
      constructor
      · rintro (hj | hj)
        · cases hj
        · rcases (IH j).mp hj with ⟨h1, h2⟩
          exact ⟨Nat.lt_succ_of_lt h1, h2⟩
      · rintro ⟨hj, hwj⟩
        rcases Nat.lt_succ_iff_lt_or_eq.mp hj with h' | rfl
        · exact Or.inr ((IH j).mpr ⟨h', hwj⟩)
        · exact absurd hwj hw

lemma pairwise_buildColumnLoop (region : Nat → Nat → Int) (walls : List Int) (i : Nat) :
    ∀ h : Nat, List.Pairwise (fun a b => b < a) (buildColumnLoop region walls i h) := by
  intro h
  induction h with
  | zero => simp [buildColumnLoop]
  | succ h IH =>
    rw [buildColumnLoop]
    apply List.pairwise_append.mpr
    refine ⟨?_, IH, ?_⟩
    · by_cases hw : region i h ∈ walls <;> simp [hw]
    · intro a ha b hb
      have hbh : b < h := ((mem_buildColumnLoop region walls i h b).mp hb).1
      by_cases hw : region i h ∈ walls
      · rw [if_pos hw] at ha
        rcases List.mem_singleton.mp ha with rfl
        exact hbh
      · rw [if_neg hw] at ha
        cases ha

lemma posGet_append (m1 m2 : List (Nat × List Nat)) (x : Nat) :
    posGet (m1 ++ m2) x = (posGet m1 x).or (posGet m2 x) := by
  unfold posGet
  rw [List.find?_append]
  cases h1 : m1.find? (fun p => p.1 = x) <;> simp [h1]

lemma posGet_buildCacheLoop (region : Nat → Nat → Int) (walls : List Int) (height : Nat) :
    ∀ (width x : Nat),
      posGet (buildCacheLoop region walls height width) x =
        if x < width ∧ buildColumnLoop region walls x height ≠ [] then
          some (buildColumnLoop region walls x height)
        else none := by
  intro width
  induction width with
  | zero => intro x; simp [buildCacheLoop, posGet]
  | succ w IH =>
    intro x
    rw [buildCacheLoop, posGet_append, IH x]
    by_cases hcw : buildColumnLoop region walls w height = []
    · rw [if_pos hcw]
      rw [show posGet [] x = none from rfl, Option.none_or]
      by_cases hx : x = w
      · subst hx
        simp [hcw]
      · have hiff : (x < w ∧ buildColumnLoop region walls x height ≠ []) ↔
            (x < w + 1 ∧ buildColumnLoop region walls x height ≠ []) := by
          constructor
          · rintro ⟨h1, h2⟩; exact ⟨by omega, h2⟩
          · rintro ⟨h1, h2⟩; exact ⟨by omega, h2⟩
        rw [if_congr hiff rfl rfl]
    · rw [if_neg hcw]
      by_cases hx : x = w
      · subst hx
        rw [show posGet [(x, buildColumnLoop region walls x height)] x =
          some (buildColumnLoop region walls x height) from by simp [posGet]]
        conv_rhs => rw [if_pos ⟨Nat.lt_succ_self x, hcw⟩]
        rfl
      · rw [show posGet [(w, buildColumnLoop region walls w height)] x = none from by
          simp [posGet, Ne.symm hx]]
        rw [Option.none_or]
        have hiff : (x < w ∧ buildColumnLoop region walls x height ≠ []) ↔
            (x < w + 1 ∧ buildColumnLoop region walls x height ≠ []) := by
          constructor
          · rintro ⟨h1, h2⟩; exact ⟨by omega, h2⟩
          · rintro ⟨h1, h2⟩; exact ⟨by omega, h2⟩
        rw [if_congr hiff rfl rfl]

lemma filter_head_max {l : List Nat} {p : Nat → Bool} (hp : List.Pairwise (fun a b => b < a) l)
    {m : Nat} {t : List Nat} (h : l.filter p = m :: t) :
    m ∈ l ∧ p m = true ∧ ∀ j ∈ l, p j = true → j ≤ m := by
  induction l with
  | nil => cases h
  | cons a l IH =>
    rcases List.pairwise_cons.mp hp with ⟨ha, hl⟩
    cases hpa : p a with
    | true =>
      rw [List.filter_cons_of_pos hpa] at h
      injection h with h1 h2
      subst h1
      refine ⟨List.mem_cons_self _ _, hpa, ?_⟩
      intro j hj hpj
      rcases List.mem_cons.mp hj with rfl | hj'
      · exact le_rfl
      · exact (ha j hj').le
    | false =>
      rw [List.filter_cons_of_neg (by simp [hpa])] at h
      rcases IH hl h with ⟨hm, hpm, hmax⟩
      refine ⟨List.mem_cons_of_mem _ hm, hpm, ?_⟩
      intro j hj hpj
      rcases List.mem_cons.mp hj with rfl | hj'
      · rw [hpa] at hpj; cases hpj
      · exact hmax j hj' hpj

lemma getWallY_eq_none {width height : Nat} {region : Nat → Nat → Int}
    {walls : List Int} {x y : Nat}
    (h : posGet (buildCurrentMapCache width height region walls) x = none) :
    getWallY width height region walls x y = -1 := by
  unfold getWallY
  rw [h]

lemma getWallY_eq_some {width height : Nat} {region : Nat → Nat → Int}
    {walls : List Int} {x y : Nat} {col : List Nat}
    (h : posGet (buildCurrentMapCache width height region walls) x = some col) :
    getWallY width height region walls x y =
      (match col.filter (fun yCoord => yCoord ≤ y) with
        | [] => -1
        | j :: _ => (j : Int)) := by
  unfold getWallY
  rw [h]

/-- C5: `getWallY(x, y)` returns the largest row `y' ≤ y` whose tile
`(x, y')` carries a wall region id, and `-1` when column `x` has no
such tile (including when `x` lies outside the map). -/
theorem getWallY_closest (width height : Nat) (region : Nat → Nat → Int)
    (wallRegions : List Int) (x y : Nat) :
    (getWallY width height region wallRegions x y = -1 ∧
      ∀ j, j < height → x < width → j ≤ y → ¬ region x j ∈ wallRegions) ∨
    (∃ j : Nat, getWallY width height region wallRegions x y = (j : Int) ∧
      x < width ∧ j < height ∧ j ≤ y ∧ region x j ∈ wallRegions ∧
      ∀ j', j' < height → j' ≤ y → region x j' ∈ wallRegions → j' ≤ j) := by
  have hpos := posGet_buildCacheLoop region wallRegions height width x
  by_cases hx : x < width ∧ buildColumnLoop region wallRegions x height ≠ []
  · rw [if_pos hx] at hpos
    cases hfilt : (buildColumnLoop region wallRegions x height).filter
        (fun yCoord => yCoord ≤ y) with
    | nil =>
      left
      refine ⟨?_, ?_⟩
      · rw [getWallY_eq_some hpos, hfilt]
      · intro j hj hxw hjy hwall
        have hmem : j ∈ buildColumnLoop region wallRegions x height :=
          (mem_buildColumnLoop region wallRegions x height j).mpr ⟨hj, hwall⟩
        have := List.filter_eq_nil_iff.mp hfilt j hmem
        simp [hjy] at this
    | cons m t =>
      right
      rcases filter_head_max (pairwise_buildColumnLoop region wallRegions x height)
        hfilt with ⟨hm, hpm, hmax⟩
      rcases (mem_buildColumnLoop region wallRegions x height m).mp hm with ⟨hmh, hmw⟩
      refine ⟨m, ?_, hx.1, hmh, by simpa using hpm, hmw, ?_⟩
      · rw [getWallY_eq_some hpos, hfilt]
      · intro j' hj' hjy' hwall'
        exact hmax j' ((mem_buildColumnLoop region wallRegions x height j').mpr
          ⟨hj', hwall'⟩) (by simpa using hjy')
  · rw [if_neg hx] at hpos
    left
    refine ⟨getWallY_eq_none hpos, ?_⟩
    intro j hj hxw hjy hwall
    rcases not_and_or.mp hx with hxw' | hcol
    · exact hxw' hxw
    · have hmem : j ∈ buildColumnLoop region wallRegions x height :=
        (mem_buildColumnLoop region wallRegions x height j).mpr ⟨hj, hwall⟩
      rw [not_not.mp hcol] at hmem
      cases hmem

end Mirrors

namespace CondFaces

lemma foldl_insert_eq (L : List Int) :
    ∀ acc : Finset Int, L.foldl (fun s i => insert i s) acc = acc ∪ L.toFinset := by
  induction L with
  | nil => intro acc; simp
  | cons a L IH =>
    intro acc
    rw [List.foldl_cons, IH]
    ext x
    simp only [Finset.mem_union, Finset.mem_insert, List.toFinset_cons, List.mem_toFinset]
    tauto

lemma intRange_toFinset (lo hi : Int) : (intRange lo hi).toFinset = Finset.Icc lo hi := by
  ext n
  rw [List.mem_toFinset, Finset.mem_Icc]
  unfold intRange
  constructor
  · intro h
    rcases List.mem_map.mp h with ⟨k, hk, rfl⟩
    have hk' := List.mem_range.mp hk
    omega
  · rintro ⟨h1, h2⟩
    refine List.mem_map.mpr ⟨(n - lo).toNat, List.mem_range.mpr ?_, ?_⟩
    · omega
    · omega

lemma addToken_eq (acc : Finset Int) (t : List Char) :
    addToken acc t = acc ∪ specTokenSet t := by
  rcases hs : splitChar '-' t with _ | ⟨a, _ | ⟨b, _ | ⟨c, r⟩⟩⟩
  · simp [addToken, specTokenSet, hs]
  · cases hp : parseIntJS a with
    | none => simp [addToken, specTokenSet, hs, hp]
    | some n =>
      by_cases hn : n = 0
      · simp [addToken, specTokenSet, hs, hp, hn]
      · simp only [addToken, specTokenSet, hs, hp]
        rw [if_pos hn, if_pos hn, Finset.insert_eq, Finset.union_comm]
  · cases hp1 : parseIntJS a with
    | none => simp [addToken, specTokenSet, hs, hp1]
    | some n1 =>
      cases hp2 : parseIntJS b with
      | none => simp [addToken, specTokenSet, hs, hp1, hp2]
      | some n2 =>
        by_cases hz : n1 ≠ 0 ∧ n2 ≠ 0
        · by_cases hgt : n1 > n2
          · simp only [addToken, specTokenSet, hs, hp1, hp2, if_pos hz, if_pos hgt]
            rw [foldl_insert_eq, intRange_toFinset,
              min_eq_right (le_of_lt hgt), max_eq_left (le_of_lt hgt)]
          · simp only [addToken, specTokenSet, hs, hp1, hp2, if_pos hz, if_neg hgt]
            rw [foldl_insert_eq, intRange_toFinset,
              min_eq_left (not_lt.mp hgt), max_eq_right (not_lt.mp hgt)]
        · simp [addToken, specTokenSet, hs, hp1, hp2, hz]
  · simp [addToken, specTokenSet, hs]

lemma foldl_addToken (ts : List (List Char)) :
    ∀ acc : Finset Int,
      ts.foldl addToken acc = acc ∪ (ts.map specTokenSet).foldr (· ∪ ·) ∅ := by
  induction ts with
  | nil => intro acc; simp
  | cons t ts IH =>
    intro acc
    rw [List.foldl_cons, IH, addToken_eq]
    ext x
    simp only [Finset.mem_union, List.map_cons, List.foldr_cons]
    tauto

/-- C7 (amended): `getSetFromNumList` returns exactly the union of the
tokens' contributions, where a hyphen-free token contributes its
`parseInt` value when that value is a number other than zero, a token
with exactly one hyphen contributes every integer between its two
parsed values inclusive (endpoints in either order) when both are
numbers other than zero, and every other token contributes nothing.
In particular tokens parsing to `0` contribute nothing, and a leading
hyphen is consumed as a range separator rather than a minus sign. -/
theorem getSetFromNumList_spec (numList : String) :
    getSetFromNumList numList = specNumListSet numList := by
  rw [getSetFromNumList, specNumListSet, foldl_addToken]
  exact Finset.empty_union _

end CondFaces
